import Mathlib

/-!
Shallow embedding of the SyncDocs synchronization engine.

The definitions below are translated from the Go sources:
* the syncer pipeline `SyncRepositoryByID` (package `syncer`),
* the extension filter built from `strings.Split` / `strings.TrimSpace` /
  `filepath.Ext` / `strings.ToLower` inside that pipeline,
* the aggregated-document framing written by the fetch loop,
* the store operations `UpdateSyncStatus`, `UpdateSyncSuccess`,
  `GetRepositoryByID` (`internal/database/models.go`),
* the recursive listing `GetRepoContentsRecursive` (`internal/github/client.go`).

External effects (database command execution, GitHub API responses) are
modelled as explicit oracle parameters; machine state (the repositories
table, the in-process single-flight registry) is passed explicitly.
-/

namespace SyncDocs

/-- A discovered remote file: path plus content SHA
(Go struct `github.FileInfo`). -/
structure FileInfo where
  path : String
  sha : String
deriving DecidableEq

/-! ### Go string primitives used by the filter -/

/-- Go `strings.Split(s, ",")` on character lists: splitting never yields an
empty list; the empty string splits to one empty field. -/
def splitOnComma : List Char → List (List Char)
  | [] => [[]]
  | c :: rest =>
    if c = ',' then [] :: splitOnComma rest
    else
      match splitOnComma rest with
      | [] => [[c]]
      | s :: ss => (c :: s) :: ss

/-- ASCII whitespace recognised by Go `strings.TrimSpace` (the ASCII fast
path: space, tab, newline, vertical tab, form feed, carriage return). -/
def isGoSpace (c : Char) : Bool :=
  c = ' ' || c = '\t' || c = '\n' || c = '\x0b' || c = '\x0c' || c = '\r'

/-- Go `strings.TrimSpace` on character lists. -/
def trimSpace (l : List Char) : List Char :=
  ((l.dropWhile isGoSpace).reverse.dropWhile isGoSpace).reverse

/-- Scan a reversed path for its extension: walking from the end of the
path, stop at a path separator (no extension) or at the first dot (the
extension is that dot plus everything scanned so far).  `acc` holds the
already-scanned characters in original order. -/
def extFromRev (acc : List Char) : List Char → List Char
  | [] => []
  | c :: rest =>
    if c = '/' then []
    else if c = '.' then '.' :: acc
    else extFromRev (c :: acc) rest

/-- Go `filepath.Ext(p)`: the suffix of the final path element beginning at
its last dot, empty if the final element has no dot. -/
def filepathExt (p : String) : List Char :=
  extFromRev [] p.data.reverse

/-- The final element of a path: the characters after its last separator
(the whole path when it has none). -/
def finalElem (p : String) : List Char :=
  (p.data.reverse.takeWhile (fun c => c != '/')).reverse

/-- ASCII lowering of one character, as Go `strings.ToLower` acts on ASCII
input: uppercase letters gain 32, everything else is unchanged. -/
def asciiToLower (c : Char) : Char :=
  if 65 ≤ c.toNat ∧ c.toNat ≤ 90 then Char.ofNat (c.toNat + 32) else c

/-- `strings.ToLower(filepath.Ext(path))` from the syncer's filter loop. -/
def lowerExt (p : String) : List Char :=
  (filepathExt p).map asciiToLower

/-- The allow-set built by the syncer from the repository's comma-separated
`Extensions` field: split on commas, trim each entry, drop empty entries,
prefix a dot.  The entries are NOT case-normalised by the code. -/
def allowedKeys (extensions : String) : List (List Char) :=
  (splitOnComma extensions.data).filterMap fun e =>
    let t := trimSpace e
    if t = [] then none else some ('.' :: t)

/-- The syncer's per-file filter test: the lowercased `filepath.Ext` of the
path is a member of the allow-set. -/
def matchesFilter (extensions path : String) : Bool :=
  (allowedKeys extensions).contains (lowerExt path)

/-- Step 4 of the pipeline: keep exactly the listed files whose extension
passes the filter. -/
def filterFiles (extensions : String) (files : List FileInfo) : List FileInfo :=
  files.filter fun f => matchesFilter extensions f.path

/-- Modelled from the spec: the Extension Filter as §4.2 words it — entries
are additionally lowercased when the allow-set is built, so that the whole
match is case-insensitive.  Kept only to compare against `matchesFilter`,
which is the code's filter. -/
def specAllowedKeys (extensions : String) : List (List Char) :=
  (splitOnComma extensions.data).filterMap fun e =>
    let t := (trimSpace e).map asciiToLower
    if t = [] then none else some ('.' :: t)

/-- Modelled from the spec: §4.2's case-insensitive membership test. -/
def specMatchesFilter (extensions path : String) : Bool :=
  (specAllowedKeys extensions).contains (lowerExt path)

/-! ### Aggregator -/

/-- One block of the aggregated document, exactly as the fetch loop writes
it: `---`, `File: <path>`, `---`, a blank line, the raw content, then the
content's line break plus two blank lines. -/
def fileBlock (path content : String) : String :=
  "---\n" ++ ("File: " ++ path ++ "\n") ++ "---\n\n" ++ content ++ "\n\n\n"

/-- The whole document for a list of files whose contents are given by `g`:
one block per file, in list order, nothing after the last block; empty for
the empty list. -/
def docOf (g : String → String) : List FileInfo → String
  | [] => ""
  | f :: rest => fileBlock f.path (g f.path) ++ docOf g rest

/-- The fetch-and-aggregate loop of pipeline step 6: fetch each file in
order; the first failure aborts with that file's path and error, otherwise
the concatenated document is produced. -/
def fetchAggregate (fetch : String → Except String String) :
    List FileInfo → Except (String × String) String
  | [] => .ok ""
  | f :: rest =>
    match fetch f.path with
    | .error e => .error (f.path, e)
    | .ok c =>
      match fetchAggregate fetch rest with
      | .error pe => .error pe
      | .ok doc => .ok (fileBlock f.path c ++ doc)

/-- Go's `<`/`≤` on strings is byte-wise lexicographic; on UTF-8 data byte
order and codepoint order agree, so it is codepoint-lexicographic order on
the character lists. -/
def lexLe : List Char → List Char → Bool
  | [], _ => true
  | _ :: _, [] => false
  | a :: as, b :: bs => if a = b then lexLe as bs else decide (a < b)

/-- The path order used by step 5's sort. -/
def pathLe (a b : FileInfo) : Prop :=
  lexLe a.path.data b.path.data = true

instance (a b : FileInfo) : Decidable (pathLe a b) := by
  unfold pathLe
  infer_instance

/-- Step 5: `sort.Slice` on `Path` with Go's byte-wise `<` on strings;
modelled as an insertion sort by the path order. -/
def sortFiles (files : List FileInfo) : List FileInfo :=
  List.insertionSort pathLe files

/-! ### Store model (`internal/database/models.go`) -/

/-- One row of the `repositories` table, with the fields the syncer touches
or must leave alone.  `NOW()` timestamps are modelled as naturals. -/
structure RepoRecord where
  url : String
  owner : String
  repoName : String
  docsPath : String
  extensions : String
  branch : String
  aggregatedContent : Option String
  lastSyncStatus : String
  lastSyncTime : Option Nat
  lastSyncError : Option String
  updatedAt : Nat
deriving DecidableEq

/-- The repositories table: records indexed by id. -/
def DB := Nat → Option RepoRecord

/-- The row update performed by `UpdateSyncStatus`'s SQL: set
`last_sync_status`, `last_sync_error`, `updated_at` on the matching row
(an absent id updates zero rows, which is not an error). -/
def applySyncStatus (db : DB) (id : Nat) (status : String)
    (errMsg : Option String) (now : Nat) : DB :=
  fun rid =>
    if rid = id then
      (db rid).map fun r =>
        { r with lastSyncStatus := status, lastSyncError := errMsg, updatedAt := now }
    else db rid

/-- `UpdateSyncStatus`: the database `Exec` outcome is the oracle `exec`;
on failure the error is wrapped and the table is unchanged. -/
def updateSyncStatus (exec : Except String Unit) (db : DB) (id : Nat)
    (status : String) (errMsg : Option String) (now : Nat) :
    Except String Unit × DB :=
  match exec with
  | .error e => (.error ("failed to update sync status: " ++ e), db)
  | .ok _ => (.ok (), applySyncStatus db id status errMsg now)

/-- The row update performed by `UpdateSyncSuccess`'s SQL: set
`aggregated_content`, `last_sync_status = success`, `last_sync_time`,
clear `last_sync_error`, stamp `updated_at`. -/
def applySyncSuccess (db : DB) (id : Nat) (content : String) (now : Nat) : DB :=
  fun rid =>
    if rid = id then
      (db rid).map fun r =>
        { r with aggregatedContent := some content, lastSyncStatus := "success",
                 lastSyncTime := some now, lastSyncError := none, updatedAt := now }
    else db rid

/-- `UpdateSyncSuccess` with its `Exec` outcome as oracle. -/
def updateSyncSuccess (exec : Except String Unit) (db : DB) (id : Nat)
    (content : String) (now : Nat) : Except String Unit × DB :=
  match exec with
  | .error e => (.error ("failed to update sync success data: " ++ e), db)
  | .ok _ => (.ok (), applySyncSuccess db id content now)

/-- `GetRepositoryByID`: an absent row is `pgx.ErrNoRows`, reported as a
not-found error; any other query failure (oracle `exec`) is wrapped. -/
def getRepositoryByID (exec : Except String Unit) (db : DB) (id : Nat) :
    Except String RepoRecord :=
  match db id with
  | none => .error ("repository with ID " ++ toString id ++ " not found")
  | some r =>
    match exec with
    | .error e => .error ("failed to get repository: " ++ e)
    | .ok _ => .ok r

/-! ### The syncer pipeline (`SyncRepositoryByID`) -/

/-- `strings.Contains(err.Error(), "not found")`. -/
def containsNotFound (e : String) : Bool :=
  decide ("not found".data <:+: e.data)

/-- The error recorded when fetching one file's content fails
(`fmt.Errorf` in pipeline step 6). -/
def fetchFailMsg (path branch e : String) : String :=
  "failed to get content for file \x27" ++ path ++ "\x27 (branch: " ++
    branch ++ "): " ++ e

/-- The external outcomes one run can observe: the three database `Exec`
results, the detail query, the GitHub listing, per-path file content, and
the clock. -/
structure RunEnv where
  execSyncing : Except String Unit
  getRepoExec : Except String Unit
  listing : Except String (List FileInfo)
  fetch : String → Except String String
  execFailed : Except String Unit
  execSuccess : Except String Unit
  now : Nat

/-- Pipeline steps 2–7, entered after the single-flight lock and the
`syncing` mark: load details, list the tree, filter, short-circuit the
empty case, sort, fetch-aggregate, persist. -/
def syncFromStep2 (env : RunEnv) (db : DB) (id : Nat) :
    Except String Unit × DB :=
  match getRepositoryByID env.getRepoExec db id with
  | .error e =>
    let (_, db2) := updateSyncStatus env.execFailed db id "failed"
      (some ("failed to fetch repository details: " ++ e)) env.now
    (.error e, db2)
  | .ok repo =>
    match env.listing with
    | .error e =>
      let (_, db2) := updateSyncStatus env.execFailed db id "failed"
        (some ("failed to list GitHub repository contents (branch: " ++
          repo.branch ++ "): " ++ e)) env.now
      (.error e, db2)
    | .ok filesInfo =>
      let filesToFetch := filterFiles repo.extensions filesInfo
      if filesToFetch.isEmpty then
        let (_, db2) := updateSyncSuccess env.execSuccess db id "" env.now
        (.ok (), db2)
      else
        match fetchAggregate env.fetch (sortFiles filesToFetch) with
        | .error (path, e) =>
          let (_, db2) := updateSyncStatus env.execFailed db id "failed"
            (some (fetchFailMsg path repo.branch e)) env.now
          (.error e, db2)
        | .ok doc =>
          match updateSyncSuccess env.execSuccess db id doc env.now with
          | (.error e, db2) => (.error e, db2)
          | (.ok _, db2) => (.ok (), db2)

/-- Step 1 plus the rest: mark `syncing`; a write failure whose message
contains "not found" aborts the run, any other write failure is logged and
the pipeline proceeds on the unwritten table. -/
def syncAfterLock (env : RunEnv) (db : DB) (id : Nat) :
    Except String Unit × DB :=
  match updateSyncStatus env.execSyncing db id "syncing" none env.now with
  | (.error e, db1) =>
    if containsNotFound e then
      (.error ("repository " ++ toString id ++ " not found to start sync"), db1)
    else
      syncFromStep2 env db1 id
  | (.ok _, db1) => syncFromStep2 env db1 id

/-- `SyncRepositoryByID`: the single-flight registry is checked-and-set
under the mutex; a present id is rejected immediately with no store write,
otherwise the pipeline runs and the deferred delete restores the registry. -/
def syncRepositoryByID (env : RunEnv) (reg : List Nat) (db : DB) (id : Nat) :
    Except String Unit × DB × List Nat :=
  if reg.contains id then
    (.error ("sync already in progress for repository " ++ toString id), db, reg)
  else
    let (res, db1) := syncAfterLock env db id
    (res, db1, reg)

/-! ### Recursive listing (`GetRepoContentsRecursive`) -/

/-- One entry of a directory listing returned by the GitHub contents API:
a subdirectory, a file (whose SHA pointer may be nil), or another type
(symlink, submodule), which the traversal ignores. -/
inductive TreeEntry
  | dir (path : String)
  | file (path : String) (sha : Option String)
  | other
deriving DecidableEq

/-- What one `GetContents` call on a path can produce: a 404, another API
error, a directory listing, nil directory contents that re-query to a
single file, or nil directory contents that do not. -/
inductive ContentsResult
  | notFound
  | apiErr (msg : String)
  | dirListing (entries : List TreeEntry)
  | singleFile (path sha : String)
  | nilContents
deriving DecidableEq

/-- The subdirectories a listing pushes onto the traversal queue, in
listing order. -/
def entryDirs : List TreeEntry → List String
  | [] => []
  | .dir p :: rest => p :: entryDirs rest
  | _ :: rest => entryDirs rest

/-- The files a listing collects, in listing order; a file whose SHA is
missing is skipped with a warning. -/
def entryFiles : List TreeEntry → List FileInfo
  | [] => []
  | .file p (some sha) :: rest => ⟨p, sha⟩ :: entryFiles rest
  | _ :: rest => entryFiles rest

/-- The queue-driven traversal loop of `GetRepoContentsRecursive`, with
explicit fuel (`none` = fuel exhausted before the queue drained): a 404 on
the current path skips it and continues; any other API error aborts the
whole listing with a wrapped error and no file list; a directory listing
enqueues its subdirectories and collects its files. -/
def listLoop (get : String → ContentsResult) (branch : String) :
    Nat → List String → List FileInfo → Option (Except String (List FileInfo))
  | _, [], acc => some (.ok acc)
  | 0, _ :: _, _ => none
  | fuel + 1, p :: rest, acc =>
    match get p with
    | .notFound => listLoop get branch fuel rest acc
    | .apiErr e =>
      some (.error ("failed to get contents for path \x27" ++ p ++
        "\x27 (branch: " ++ branch ++ "): " ++ e))
    | .dirListing entries =>
      listLoop get branch fuel (rest ++ entryDirs entries) (acc ++ entryFiles entries)
    | .singleFile fp sha => listLoop get branch fuel rest (acc ++ [⟨fp, sha⟩])
    | .nilContents => listLoop get branch fuel rest acc

/-- `GetRepoContentsRecursive` starts the loop from the configured root. -/
def getRepoContentsRecursive (get : String → ContentsResult) (branch : String)
    (fuel : Nat) (rootPath : String) : Option (Except String (List FileInfo)) :=
  listLoop get branch fuel [rootPath] []

/-! ### Concrete witness data -/

def envC4w : RunEnv :=
  ⟨.ok (), .ok (), .ok [], fun _ => .ok "", .ok (), .ok (), 0⟩

def dbC4w : DB := fun _ => none

def envC8nf : RunEnv :=
  ⟨.error "record not found", .ok (), .ok [], fun _ => .ok "", .ok (), .ok (), 0⟩

def envC8other : RunEnv :=
  ⟨.error "connection reset", .ok (), .ok [], fun _ => .ok "", .ok (), .ok (), 0⟩

def dbC8w : DB := fun _ => none

def getC7w : String → ContentsResult := fun p =>
  if p = "docs/missing" then .notFound
  else if p = "docs/bad" then .apiErr "boom"
  else .dirListing []

/-- A sample repository row used by several closed witness statements. -/
def sampleRepo : RepoRecord :=
  { url := "https://github.com/o/r", owner := "o", repoName := "r",
    docsPath := "docs", extensions := "md", branch := "main",
    aggregatedContent := some "old", lastSyncStatus := "pending",
    lastSyncTime := none, lastSyncError := none, updatedAt := 0 }

def dbC2x : DB := fun rid => if rid = 1 then some sampleRepo else none

/-- Environment of the C2 counterexample run: every external step succeeds
except the final success-persistence write. -/
def envC2x : RunEnv :=
  { execSyncing := .ok (), getRepoExec := .ok (),
    listing := .ok [⟨"docs/a.md", "sha1"⟩],
    fetch := fun _ => .ok "hello", execFailed := .ok (),
    execSuccess := .error "connection lost", now := 5 }

def dbC2w : DB := fun rid => if rid = 1 then some sampleRepo else none

def envC2w : RunEnv :=
  { execSyncing := .ok (), getRepoExec := .ok (),
    listing := .ok [⟨"docs/a.md", "sha1"⟩],
    fetch := fun _ => .ok "hello", execFailed := .ok (),
    execSuccess := .ok (), now := 5 }

def dbC5w : DB := fun rid => if rid = 1 then some sampleRepo else none

def envC5w : RunEnv :=
  { execSyncing := .ok (), getRepoExec := .ok (),
    listing := .ok [⟨"docs/notes.txt", "sha1"⟩],
    fetch := fun _ => .ok "hello", execFailed := .ok (),
    execSuccess := .ok (), now := 5 }

def gC1w : String → String := fun p => if p = "docs/a.md" then "A" else "B"

def dbC1w : DB := fun rid => if rid = 1 then some sampleRepo else none

def envC1w : RunEnv :=
  { execSyncing := .ok (), getRepoExec := .ok (),
    listing := .ok [⟨"docs/a.md", "s1"⟩, ⟨"docs/b.md", "s2"⟩],
    fetch := fun p => .ok (gC1w p), execFailed := .ok (),
    execSuccess := .ok (), now := 5 }

def dbC3w : DB := fun rid => if rid = 1 then some sampleRepo else none

def envC3w : RunEnv :=
  { execSyncing := .ok (), getRepoExec := .ok (),
    listing := .ok [⟨"a.md", "s1"⟩, ⟨"b.md", "s2"⟩, ⟨"c.md", "s3"⟩],
    fetch := fun p => if p = "b.md" then .error "404 not there" else .ok "data",
    execFailed := .ok (), execSuccess := .ok (), now := 5 }

def dbC9w : DB := fun rid => if rid = 1 then some sampleRepo else none

/-! ### Helper lemmas -/

theorem dataAppend (a b : String) : (a ++ b).data = a.data ++ b.data := by
  cases a
  cases b
  rfl

/-- When every fetch succeeds with contents `g`, the loop produces exactly
the concatenated blocks. -/
theorem fetchAggregate_pure (g : String → String) (l : List FileInfo) :
    fetchAggregate (fun p => .ok (g p)) l = .ok (docOf g l) := by
  induction l with
  | nil => rfl
  | cons f rest ih => simp [fetchAggregate, docOf, ih]

/-- The loop aborts at the first failing file, reporting its path and the
fetch error. -/
theorem fetchAggregate_first_error (fetch : String → Except String String)
    (pre : List FileInfo) (f : FileInfo) (post : List FileInfo) (e : String)
    (hpre : ∀ x ∈ pre, ∃ c, fetch x.path = .ok c)
    (hf : fetch f.path = .error e) :
    fetchAggregate fetch (pre ++ f :: post) = .error (f.path, e) := by
  induction pre with
  | nil => simp [fetchAggregate, hf]
  | cons x xs ih =>
    obtain ⟨c, hc⟩ := hpre x (by simp)
    have hrest := ih fun y hy => hpre y (by simp [hy])
    simp [fetchAggregate, hc, hrest]

/-- An already path-sorted list is a fixpoint of the sort step. -/
theorem sortFiles_sorted_eq (l : List FileInfo)
    (h : List.Sorted pathLe l) : sortFiles l = l :=
  h.insertionSort_eq

/-- If no dot occurs before the first separator scanning from the end,
the extension scan yields the empty extension. -/
theorem extFromRev_eq_nil (rev : List Char) :
    ∀ acc, '.' ∉ rev.takeWhile (fun c => c != '/') → extFromRev acc rev = [] := by
  induction rev with
  | nil => intro acc _; rfl
  | cons c rest ih =>
    intro acc h
    by_cases hc : c = '/'
    · simp [extFromRev, hc]
    · have hpos : (c != '/') = true := by simp [hc]
      have h' : '.' ∉ c :: rest.takeWhile (fun c => c != '/') := by
        simpa [List.takeWhile, hpos] using h
      have hcd : c ≠ '.' := by
        intro hdot
        exact h' (by rw [hdot]; exact List.mem_cons_self _ _)
      have hrest : '.' ∉ rest.takeWhile (fun c => c != '/') :=
        fun hm => h' (List.mem_cons_of_mem c hm)
      simp [extFromRev, hc, hcd, ih _ hrest]

/-- The extension scan yields either nothing or a dot followed by a
dot-free tail (every character after the last dot is not a dot). -/
theorem extFromRev_dot_free (rev : List Char) :
    ∀ acc, (∀ c ∈ acc, c ≠ '.') →
      extFromRev acc rev = [] ∨
        ∃ t, extFromRev acc rev = '.' :: t ∧ ∀ c ∈ t, c ≠ '.' := by
  induction rev with
  | nil => intro acc _; left; rfl
  | cons c rest ih =>
    intro acc hacc
    by_cases hc : c = '/'
    · left; simp [extFromRev, hc]
    · by_cases hd : c = '.'
      · right
        exact ⟨acc, by simp [extFromRev, hc, hd], hacc⟩
      · have : ∀ x ∈ c :: acc, x ≠ '.' := by
          intro x hx
          rcases List.mem_cons.mp hx with h1 | h2
          · exact h1 ▸ hd
          · exact hacc x h2
        simpa [extFromRev, hc, hd] using ih (c :: acc) this

/-- Only a dot lowercases to a dot. -/
theorem asciiToLower_eq_dot (c : Char) (h : asciiToLower c = '.') : c = '.' := by
  unfold asciiToLower at h
  by_cases hr : 65 ≤ c.toNat ∧ c.toNat ≤ 90
  · exfalso
    rw [if_pos hr] at h
    have haux : ∀ n : ℕ, 65 ≤ n → n ≤ 90 → Char.ofNat (n + 32) ≠ '.' := by
      intro n h1 h2
      interval_cases n <;> decide
    exact haux c.toNat hr.1 hr.2 h
  · rwa [if_neg hr] at h

/-- Every allow-set key is a dot followed by the trimmed entry. -/
theorem allowedKeys_shape (extensions : String) (k : List Char)
    (hk : k ∈ allowedKeys extensions) : ∃ t, k = '.' :: t := by
  unfold allowedKeys at hk
  rcases List.mem_filterMap.mp hk with ⟨e, _, he⟩
  by_cases h : trimSpace e = [] <;> simp [h] at he
  exact ⟨trimSpace e, he.symm⟩

/-- The lowered extension of any path is empty or a dot followed by a
dot-free tail. -/
theorem lowerExt_shape (p : String) :
    lowerExt p = [] ∨ ∃ t, lowerExt p = '.' :: t ∧ '.' ∉ t := by
  unfold lowerExt filepathExt
  rcases extFromRev_dot_free p.data.reverse [] (by simp) with h | ⟨t, ht, htf⟩
  · left; simp [h]
  · right
    refine ⟨t.map asciiToLower, by simp [ht, asciiToLower], ?_⟩
    intro hmem
    rcases List.mem_map.mp hmem with ⟨c, hc, hlc⟩
    exact htf c hc (asciiToLower_eq_dot c hlc)

/-- Membership form of the allow-set lookup. -/
theorem matchesFilter_iff_mem (extensions path : String) :
    matchesFilter extensions path = true ↔
      lowerExt path ∈ allowedKeys extensions := by
  unfold matchesFilter
  rw [List.contains, List.elem_iff]

/-! ### C10: the filter keys on `filepath.Ext` alone -/

/-- C10: the filter keys a path purely on its `filepath.Ext`: a path whose
final element has no dot matches no allow-list at all, and an allow-list
entry that itself contains a dot (key `'.' :: t` with a dot inside `t`,
e.g. entry "tar.gz") can never equal the lowered extension of any path, so
such an entry matches nothing — even a path ending in that suffix. -/
theorem C10_ext_keying (exts p : String) (t : List Char) :
    ('.' ∉ finalElem p → matchesFilter exts p = false) ∧
    ('.' ∈ t → lowerExt p ≠ '.' :: t) := by
  constructor
  · intro h
    have hnf : '.' ∉ p.data.reverse.takeWhile (fun c => c != '/') := by
      intro hm
      exact h (by unfold finalElem; exact List.mem_reverse.mpr hm)
    have hle : lowerExt p = [] := by
      simp [lowerExt, filepathExt, extFromRev_eq_nil p.data.reverse [] hnf]
    by_contra h2
    rw [Bool.not_eq_false, matchesFilter_iff_mem, hle] at h2
    rcases allowedKeys_shape exts [] h2 with ⟨t0, ht0⟩
    exact List.cons_ne_nil _ _ ht0.symm
  · intro hdot heq
    rcases lowerExt_shape p with h0 | ⟨t0, ht0, htf⟩
    · rw [h0] at heq
      exact List.cons_ne_nil _ _ heq.symm
    · rw [ht0] at heq
      have : t0 = t := by injection heq
      exact htf (this ▸ hdot)

theorem C10_ext_keying_witness :
    (matchesFilter "md,txt" "docs/README" = false) ∧
    (lowerExt "a.tar.gz" ≠ '.' :: "tar.gz".data) :=
  ⟨(C10_ext_keying "md,txt" "docs/README" "tar.gz".data).1 (by decide),
   (C10_ext_keying "md,txt" "a.tar.gz" "tar.gz".data).2 (by decide)⟩

/-! ### C6: the filter is not case-insensitive on configured entries -/

/-- C6 counterexample: the claim says the filter is case-insensitive, so
the configured entry "MD" would accept path "a.md" (and "a.MD"); the code
never lowercases configured entries, so "MD" accepts neither, while the
spec-worded filter (entries lowercased) accepts both. -/
theorem C6_counterexample :
    matchesFilter "MD" "a.md" = false ∧
    matchesFilter "MD" "a.MD" = false ∧
    specMatchesFilter "MD" "a.md" = true := by
  refine ⟨by decide, by decide, by decide⟩

/-- C6 amended: the filter trims each comma-separated entry, ignores empty
or whitespace-only entries, prefixes the separator, and accepts a path
exactly when its lowercased `filepath.Ext` equals `'.' :: entry` for some
surviving entry byte-for-byte — the path's extension is lowercased but the
entries are not, so the match is case-insensitive only on the path side;
when no entry survives, no path is accepted. -/
theorem C6_filter_amended (exts p : String) :
    (matchesFilter exts p = true ↔
      ∃ e ∈ splitOnComma exts.data,
        trimSpace e ≠ [] ∧ '.' :: trimSpace e = lowerExt p) ∧
    (allowedKeys exts = [] → matchesFilter exts p = false) := by
  constructor
  · rw [matchesFilter_iff_mem]
    unfold allowedKeys
    rw [List.mem_filterMap]
    constructor
    · rintro ⟨e, he, hfe⟩
      by_cases h : trimSpace e = [] <;> simp [h] at hfe
      exact ⟨e, he, h, hfe⟩
    · rintro ⟨e, he, hne, hfe⟩
      exact ⟨e, he, by simp [hne, hfe]⟩
  · intro h
    by_contra h2
    rw [Bool.not_eq_false, matchesFilter_iff_mem, h] at h2
    exact List.not_mem_nil _ h2

theorem C6_filter_amended_witness :
    matchesFilter " md , txt" "a.md" = true :=
  (C6_filter_amended " md , txt" "a.md").1.mpr
    ⟨" md ".data, by decide, by decide, by decide⟩

/-! ### C4: single-flight rejection -/

/-- C4: when the repository id is already present in the single-flight
registry, the run is rejected immediately with the sync-in-progress error,
the backing store is untouched, and the registry is unchanged — so at most
one run per id proceeds past the guard at a time. -/
theorem C4_singleflight_reject (env : RunEnv) (reg : List Nat) (db : DB)
    (id : Nat) (h : reg.contains id = true) :
    syncRepositoryByID env reg db id =
      (.error ("sync already in progress for repository " ++ toString id),
        db, reg) := by
  have h' : id ∈ reg := by simpa using h
  simp [syncRepositoryByID, h']

theorem C4_singleflight_reject_witness :
    syncRepositoryByID envC4w [7] dbC4w 7 =
      (.error ("sync already in progress for repository " ++ toString 7),
        dbC4w, [7]) :=
  C4_singleflight_reject envC4w [7] dbC4w 7 (by decide)

/-! ### C8: failure of the initial `syncing` mark -/

/-- C8: if the write that marks the record `syncing` fails and its error
message contains "not found" (the code's test for a concurrently deleted
record), the run aborts with the not-found error and the store is
untouched; if the write fails for any other reason, the run proceeds with
the rest of the pipeline on the unwritten store. -/
theorem C8_syncing_mark_failure (env : RunEnv) (reg : List Nat) (db : DB)
    (id : Nat) (e : String) (hreg : reg.contains id = false)
    (he : env.execSyncing = .error e) :
    (containsNotFound ("failed to update sync status: " ++ e) = true →
      syncRepositoryByID env reg db id =
        (.error ("repository " ++ toString id ++ " not found to start sync"),
          db, reg)) ∧
    (containsNotFound ("failed to update sync status: " ++ e) = false →
      syncRepositoryByID env reg db id =
        ((syncFromStep2 env db id).1, (syncFromStep2 env db id).2, reg)) := by
  have h' : id ∉ reg := by simpa using hreg
  constructor
  · intro h
    simp [syncRepositoryByID, syncAfterLock, updateSyncStatus, h', he, h]
  · intro h
    simp [syncRepositoryByID, syncAfterLock, updateSyncStatus, h', he, h]

theorem C8_syncing_mark_failure_witness :
    (syncRepositoryByID envC8nf [] dbC8w 3 =
      (.error ("repository " ++ toString 3 ++ " not found to start sync"),
        dbC8w, [])) ∧
    (syncRepositoryByID envC8other [] dbC8w 3 =
      ((syncFromStep2 envC8other dbC8w 3).1,
        (syncFromStep2 envC8other dbC8w 3).2, [])) :=
  ⟨(C8_syncing_mark_failure envC8nf [] dbC8w 3 "record not found"
      (by decide) rfl).1 (by decide),
   (C8_syncing_mark_failure envC8other [] dbC8w 3 "connection reset"
      (by decide) rfl).2 (by decide)⟩

/-! ### C7: NotFound is non-fatal during listing, other errors abort -/

/-- C7: during the recursive listing, a NotFound on the currently queued
path skips it and continues the traversal with the remaining queue; any
other API error makes the whole listing return the wrapped error (carrying
no file list) regardless of what remains queued. -/
theorem C7_listing_notfound_skip (get : String → ContentsResult)
    (branch : String) (fuel : Nat) (p : String) (rest : List String)
    (acc : List FileInfo) :
    (get p = .notFound →
      listLoop get branch (fuel + 1) (p :: rest) acc =
        listLoop get branch fuel rest acc) ∧
    (∀ e, get p = .apiErr e →
      listLoop get branch (fuel + 1) (p :: rest) acc =
        some (.error ("failed to get contents for path \x27" ++ p ++
          "\x27 (branch: " ++ branch ++ "): " ++ e))) := by
  constructor
  · intro h
    simp [listLoop, h]
  · intro e h
    simp [listLoop, h]

/-! ### C9: frame property of the status update -/

/-- C9: the status-update store operation touches only `last_sync_status`,
`last_sync_error` and `updated_at` of the addressed row: every other row
is returned unchanged, a failed command changes nothing, and on success
the addressed row keeps its url, owner, repo name, docs path, extensions,
branch, aggregated content and last sync time, receiving only the new
status, error message and timestamp. -/
theorem C9_updateSyncStatus_frame (exec : Except String Unit) (db : DB)
    (id rid : Nat) (status : String) (errMsg : Option String) (now : Nat)
    (r : RepoRecord) (e : String) (hdb : db id = some r) (hrid : rid ≠ id) :
    ((updateSyncStatus exec db id status errMsg now).2 rid = db rid) ∧
    ((updateSyncStatus (.error e) db id status errMsg now).2 = db) ∧
    ((updateSyncStatus (.ok ()) db id status errMsg now).2 id =
      some { r with lastSyncStatus := status, lastSyncError := errMsg,
                    updatedAt := now }) := by
  refine ⟨?_, rfl, ?_⟩
  · cases exec <;> simp [updateSyncStatus, applySyncStatus, hrid]
  · simp [updateSyncStatus, applySyncStatus, hdb]

theorem C9_updateSyncStatus_frame_witness :
    (((updateSyncStatus (.ok ()) dbC9w 1 "failed" (some "x") 9).2 2 = dbC9w 2) ∧
     ((updateSyncStatus (.error "err") dbC9w 1 "failed" (some "x") 9).2 = dbC9w) ∧
     ((updateSyncStatus (.ok ()) dbC9w 1 "failed" (some "x") 9).2 1 =
       some { sampleRepo with lastSyncStatus := "failed",
                              lastSyncError := some "x", updatedAt := 9 })) :=
  C9_updateSyncStatus_frame (.ok ()) dbC9w 1 2 "failed" (some "x") 9
    sampleRepo "err" rfl (by decide)

/-! ### C5: zero eligible files is a success with an empty document -/

/-- C5: when no listed file survives the extension filter, the run
persists the empty aggregated document, marks the record `success`
(clearing the error, stamping the time), and returns no error. -/
theorem C5_empty_filter_success (env : RunEnv) (reg : List Nat) (db : DB)
    (id : Nat) (r : RepoRecord) (fs : List FileInfo)
    (hreg : reg.contains id = false) (hdb : db id = some r)
    (h1 : env.execSyncing = .ok ()) (h2 : env.getRepoExec = .ok ())
    (h3 : env.listing = .ok fs)
    (hfilter : filterFiles r.extensions fs = [])
    (hs : env.execSuccess = .ok ()) :
    (syncRepositoryByID env reg db id).1 = .ok () ∧
    (syncRepositoryByID env reg db id).2.1 id =
      some { r with aggregatedContent := some "", lastSyncStatus := "success",
                    lastSyncTime := some env.now, lastSyncError := none,
                    updatedAt := env.now } := by
  have h' : id ∉ reg := by simpa using hreg
  constructor <;>
    simp [syncRepositoryByID, syncAfterLock, syncFromStep2, updateSyncStatus,
      updateSyncSuccess, applySyncStatus, applySyncSuccess, getRepositoryByID,
      h', h1, h2, h3, hs, hdb, hfilter]

theorem C5_empty_filter_success_witness :
    (syncRepositoryByID envC5w [] dbC5w 1).1 = .ok () ∧
    (syncRepositoryByID envC5w [] dbC5w 1).2.1 1 =
      some { sampleRepo with aggregatedContent := some "",
                             lastSyncStatus := "success",
                             lastSyncTime := some envC5w.now,
                             lastSyncError := none, updatedAt := envC5w.now } :=
  C5_empty_filter_success envC5w [] dbC5w 1 sampleRepo
    [⟨"docs/notes.txt", "sha1"⟩] (by decide) rfl rfl rfl rfl (by decide) rfl

/-! ### C1: aggregated document format and order -/

/-- C1: on a run whose eligible files are already in byte-wise
lexicographic path order and whose fetches all succeed with contents `g`,
the persisted aggregated document is exactly the concatenation of one
block per file — `---`, `File: <path>`, `---`, a blank line, the raw
content, two blank lines — in that order, with nothing after the last
block, and the empty file list yields the empty document (`docOf g []`). -/
theorem C1_aggregate_format (env : RunEnv) (reg : List Nat) (db : DB)
    (id : Nat) (r : RepoRecord) (fs : List FileInfo) (g : String → String)
    (hreg : reg.contains id = false) (hdb : db id = some r)
    (h1 : env.execSyncing = .ok ()) (h2 : env.getRepoExec = .ok ())
    (h3 : env.listing = .ok fs)
    (hf : env.fetch = fun p => .ok (g p))
    (hs : env.execSuccess = .ok ())
    (hsorted : List.Sorted pathLe (filterFiles r.extensions fs)) :
    (syncRepositoryByID env reg db id).1 = .ok () ∧
    (syncRepositoryByID env reg db id).2.1 id =
      some { r with
        aggregatedContent := some (docOf g (filterFiles r.extensions fs)),
        lastSyncStatus := "success", lastSyncTime := some env.now,
        lastSyncError := none, updatedAt := env.now } := by
  have h' : id ∉ reg := by simpa using hreg
  have hsort : sortFiles (filterFiles r.extensions fs) =
      filterFiles r.extensions fs := sortFiles_sorted_eq _ hsorted
  have hagg : fetchAggregate env.fetch (sortFiles (filterFiles r.extensions fs)) =
      .ok (docOf g (filterFiles r.extensions fs)) := by
    rw [hsort, hf, fetchAggregate_pure]
  cases hemp : filterFiles r.extensions fs with
  | nil =>
    constructor <;>
      simp [syncRepositoryByID, syncAfterLock, syncFromStep2, updateSyncStatus,
        updateSyncSuccess, applySyncStatus, applySyncSuccess, getRepositoryByID,
        h', h1, h2, h3, hs, hdb, hemp, docOf]
  | cons f0 rest0 =>
    rw [hemp] at hagg
    constructor <;>
      simp [syncRepositoryByID, syncAfterLock, syncFromStep2, updateSyncStatus,
        updateSyncSuccess, applySyncStatus, applySyncSuccess, getRepositoryByID,
        h', h1, h2, h3, hs, hdb, hemp, hagg]

theorem C1_aggregate_format_witness :
    (syncRepositoryByID envC1w [] dbC1w 1).1 = .ok () ∧
    (syncRepositoryByID envC1w [] dbC1w 1).2.1 1 =
      some { sampleRepo with
        aggregatedContent := some (docOf gC1w
          (filterFiles sampleRepo.extensions
            [⟨"docs/a.md", "s1"⟩, ⟨"docs/b.md", "s2"⟩])),
        lastSyncStatus := "success", lastSyncTime := some envC1w.now,
        lastSyncError := none, updatedAt := envC1w.now } :=
  C1_aggregate_format envC1w [] dbC1w 1 sampleRepo
    [⟨"docs/a.md", "s1"⟩, ⟨"docs/b.md", "s2"⟩] gC1w
    (by decide) rfl rfl rfl rfl rfl rfl (by decide)

/-- The failed file's path occurs verbatim inside the recorded message. -/
theorem path_infix_fetchFailMsg (path branch e : String) :
    path.data <:+: (fetchFailMsg path branch e).data :=
  ⟨"failed to get content for file \x27".data,
   ("\x27 (branch: " ++ branch ++ "): " ++ e).data,
   by simp [fetchFailMsg, dataAppend]⟩

/-! ### C3: first fetch failure aborts with no partial aggregate -/

/-- C3: when the fetch of file `f` — preceded by successfully fetched
files `pre` and followed by further files `post` (so N < M) — fails, the
run returns that fetch error, the record is marked `failed` with a message
containing the file's path, and the aggregated content (and every other
field but status, error and timestamp) is exactly what it was before the
run: no partial document is persisted. -/
theorem C3_fetch_failure_aborts (env : RunEnv) (reg : List Nat) (db : DB)
    (id : Nat) (r : RepoRecord) (fs : List FileInfo)
    (pre : List FileInfo) (f : FileInfo) (post : List FileInfo) (e : String)
    (hreg : reg.contains id = false) (hdb : db id = some r)
    (h1 : env.execSyncing = .ok ()) (h2 : env.getRepoExec = .ok ())
    (h3 : env.listing = .ok fs)
    (hsplit : sortFiles (filterFiles r.extensions fs) = pre ++ f :: post)
    (hpre : ∀ x ∈ pre, ∃ c, env.fetch x.path = .ok c)
    (hf : env.fetch f.path = .error e)
    (hpost : post ≠ [])
    (hfail : env.execFailed = .ok ()) :
    (syncRepositoryByID env reg db id).1 = .error e ∧
    (syncRepositoryByID env reg db id).2.1 id =
      some { r with lastSyncStatus := "failed",
                    lastSyncError := some (fetchFailMsg f.path r.branch e),
                    updatedAt := env.now } ∧
    f.path.data <:+: (fetchFailMsg f.path r.branch e).data := by
  have h' : id ∉ reg := by simpa using hreg
  have hagg : fetchAggregate env.fetch (sortFiles (filterFiles r.extensions fs)) =
      .error (f.path, e) := by
    rw [hsplit]
    exact fetchAggregate_first_error env.fetch pre f post e hpre hf
  rcases hcase : filterFiles r.extensions fs with _ | ⟨f0, rest0⟩
  · rw [hcase] at hsplit
    cases pre <;> simp [sortFiles, List.insertionSort] at hsplit
  · rw [hcase] at hagg
    refine ⟨?_, ?_, path_infix_fetchFailMsg f.path r.branch e⟩ <;>
      simp [syncRepositoryByID, syncAfterLock, syncFromStep2, updateSyncStatus,
        updateSyncSuccess, applySyncStatus, applySyncSuccess, getRepositoryByID,
        h', h1, h2, h3, hfail, hdb, hcase, hagg]

theorem C3_fetch_failure_aborts_witness :
    (syncRepositoryByID envC3w [] dbC3w 1).1 = .error "404 not there" ∧
    (syncRepositoryByID envC3w [] dbC3w 1).2.1 1 =
      some { sampleRepo with lastSyncStatus := "failed",
                             lastSyncError := some (fetchFailMsg "b.md"
                               sampleRepo.branch "404 not there"),
                             updatedAt := envC3w.now } ∧
    "b.md".data <:+: (fetchFailMsg "b.md" sampleRepo.branch "404 not there").data :=
  C3_fetch_failure_aborts envC3w [] dbC3w 1 sampleRepo
    [⟨"a.md", "s1"⟩, ⟨"b.md", "s2"⟩, ⟨"c.md", "s3"⟩]
    [⟨"a.md", "s1"⟩] ⟨"b.md", "s2"⟩ [⟨"c.md", "s3"⟩] "404 not there"
    (by decide) rfl rfl rfl rfl (by decide)
    (by intro x hx; simp at hx; rw [hx]; exact ⟨"data", rfl⟩)
    rfl (by decide) rfl

/-! ### C2: a completed run can leave the status `syncing` -/

/-- C2 counterexample: a run in which every external step succeeds except
the final success-persistence write completes (returns the persistence
error to its caller), yet the repository's persisted status is still
`syncing` — not a terminal state.  This is exactly the path the claim
singles out as covered. -/
theorem C2_counterexample :
    (syncRepositoryByID envC2x [] dbC2x 1).1 =
      .error ("failed to update sync success data: " ++ "connection lost") ∧
    ((syncRepositoryByID envC2x [] dbC2x 1).2.1 1).map
      RepoRecord.lastSyncStatus = some "syncing" := by
  constructor <;> rfl

/-- C2 amended: whenever every status write the run attempts succeeds, a
completed run leaves the record in a terminal state (`success` or
`failed`); when the final persistence write fails after all fetches
succeeded, the run surfaces that error to the caller but the status can
remain `syncing` (see the counterexample). -/
theorem C2_terminal_state_amended (env : RunEnv) (reg : List Nat) (db : DB)
    (id : Nat) (r : RepoRecord)
    (hreg : reg.contains id = false) (hdb : db id = some r)
    (h1 : env.execSyncing = .ok ()) (hfail : env.execFailed = .ok ())
    (hs : env.execSuccess = .ok ()) :
    ((syncRepositoryByID env reg db id).2.1 id).map RepoRecord.lastSyncStatus =
        some "success" ∨
    ((syncRepositoryByID env reg db id).2.1 id).map RepoRecord.lastSyncStatus =
        some "failed" := by
  have h' : id ∉ reg := by simpa using hreg
  rcases hget : env.getRepoExec with e | u
  · right
    simp [syncRepositoryByID, syncAfterLock, syncFromStep2, updateSyncStatus,
      updateSyncStatus, applySyncStatus, getRepositoryByID, h', h1, hget,
      hfail, hdb]
  · rcases hlist : env.listing with e | fs
    · right
      simp [syncRepositoryByID, syncAfterLock, syncFromStep2, updateSyncStatus,
        applySyncStatus, getRepositoryByID, h', h1, hget, hfail, hlist, hdb]
    · rcases hcase : filterFiles r.extensions fs with _ | ⟨f0, rest0⟩
      · left
        simp [syncRepositoryByID, syncAfterLock, syncFromStep2, updateSyncStatus,
          updateSyncSuccess, applySyncStatus, applySyncSuccess,
          getRepositoryByID, h', h1, hget, hs, hlist, hdb, hcase]
      · rcases hagg : fetchAggregate env.fetch (sortFiles (f0 :: rest0)) with pe | doc
        · rcases pe with ⟨path, e⟩
          right
          simp [syncRepositoryByID, syncAfterLock, syncFromStep2,
            updateSyncStatus, applySyncStatus, getRepositoryByID, h', h1,
            hget, hfail, hlist, hdb, hcase, hagg]
        · left
          simp [syncRepositoryByID, syncAfterLock, syncFromStep2,
            updateSyncStatus, updateSyncSuccess, applySyncStatus,
            applySyncSuccess, getRepositoryByID, h', h1, hget, hs, hlist,
            hdb, hcase, hagg]

theorem C2_terminal_state_amended_witness :
    ((syncRepositoryByID envC2w [] dbC2w 1).2.1 1).map
        RepoRecord.lastSyncStatus = some "success" ∨
    ((syncRepositoryByID envC2w [] dbC2w 1).2.1 1).map
        RepoRecord.lastSyncStatus = some "failed" :=
  C2_terminal_state_amended envC2w [] dbC2w 1 sampleRepo
    (by decide) rfl rfl rfl rfl

theorem C7_listing_notfound_skip_witness :
    (listLoop getC7w "main" 3 ["docs/missing", "docs/a"] [] =
      listLoop getC7w "main" 2 ["docs/a"] []) ∧
    (listLoop getC7w "main" 3 ["docs/bad", "docs/a"] [] =
      some (.error ("failed to get contents for path \x27" ++ "docs/bad" ++
        "\x27 (branch: " ++ "main" ++ "): " ++ "boom"))) :=
  ⟨(C7_listing_notfound_skip getC7w "main" 2 "docs/missing" ["docs/a"] []).1 rfl,
   (C7_listing_notfound_skip getC7w "main" 2 "docs/bad" ["docs/a"] []).2 "boom" rfl⟩

end SyncDocs
